import Mathlib

/-!
Verification development for the upipe MPEG-TS dvbcsa descrambler pipe
(`upipe_dvbcsa_dec`).  The definitions below are a shallow embedding of
the C source: the pipe state, the TS-header accessors (from
bitstream/mpeg/ts.h), `upipe_dvbcsa_dec_input`, `upipe_dvbcsa_dec_flush`,
`upipe_dvbcsa_dec_set_key`, `upipe_dvbcsa_dec_free_key` and
`upipe_dvbcsa_dec_alloc`.  Cipher backends (libdvbcsa, libgcrypt) are
external libraries and are modelled as opaque-but-pure parameter
functions bundled in a `Backend` structure; the calls the pipe makes
into them are recorded in a trace so that theorems can speak about the
IV that is set, the region that is decrypted and the sentinel slot a
batch flush writes.
-/

namespace DvbcsaDec

/-! ## TS header accessors (bitstream/mpeg/ts.h)

A TS packet is modelled as its list of bytes.  `TS_HEADER_SIZE` is 4;
the scrambling control is the top two bits of byte 3, the payload and
adaptation flags are bits 4 and 5 of byte 3, and the PID is the low
13 bits of bytes 1-2. -/

def TS_HEADER_SIZE : Nat := 4

def TS_SCRAMBLING_EVEN : Nat := 2

def TS_SCRAMBLING_ODD : Nat := 3

def ts_get_scrambling (p : List Nat) : Nat := (p.getD 3 0 >>> 6) &&& 3

def ts_has_payload (p : List Nat) : Bool := p.getD 3 0 &&& 0x10 ≠ 0

def ts_has_adaptation (p : List Nat) : Bool := p.getD 3 0 &&& 0x20 ≠ 0

def ts_get_pid (p : List Nat) : Nat := (p.getD 1 0 &&& 0x1f) * 256 + p.getD 2 0

/-- `ts_set_scrambling(p, v)`: clear the top two bits of byte 3 and or in
`v << 6`. The pipe only ever calls it with `v = 0`. -/
def ts_set_scrambling (p : List Nat) (v : Nat) : List Nat :=
  p.set 3 ((p.getD 3 0 &&& 0x3f) ||| (v <<< 6))

/-! ## Clock constants -/

def UCLOCK_FREQ : Nat := 27000000

/-- `#define DVBCSA_LATENCY (UCLOCK_FREQ / 200)` (5 ms). -/
def DVBCSA_LATENCY : Nat := UCLOCK_FREQ / 200

/-! ## Items, modes, state -/

/-- An input item: either a TS packet or a flow-definition control
record (`uref_flow_get_def` succeeds on the latter).  The `id` field is
a ghost tag carrying the item's arrival index; the machine never
branches on it. -/
inductive Item where
  | packet (id : Nat) (bytes : List Nat)
  | flowDef (id : Nat) (latency : Nat)
deriving DecidableEq

def Item.id : Item → Nat
  | .packet i _ => i
  | .flowDef i _ => i

/-- `enum mode` of the pipe. -/
inductive Mode where
  | CSA
  | CSA_BS
  | AES
deriving DecidableEq

/-- One slot of the `dvbcsa_bs_batch_s` array: the index (into the hold
queue) of the packet whose payload the slot points into, the offset of
that payload (`ts_header_size`), and — as a ghost field — the parity the
packet was scrambled with. -/
structure BatchEntry where
  idx : Nat
  hdr : Nat
  par : Bool
deriving DecidableEq

/-- The private state of `struct upipe_dvbcsa_dec`.  `keyEven`/`keyOdd`
model occupancy of the two slots of the key union (`key` / `key_bs` /
`aes`); `held` is the list of retained urefs of the input helper;
`useCount` counts the outstanding self-references taken with
`upipe_use` (released by `upipe_release` at the end of `flush`);
`checkPid` is the opaque PID-set membership predicate of
`upipe_dvbcsa_common`. -/
structure DecState where
  mode : Mode
  keyEven : Bool
  keyOdd : Bool
  odd : Bool
  batchSize : Nat
  batch : List BatchEntry
  held : List Item
  checkPid : Nat → Bool
  latency : Nat
  useCount : Int
  timerArmed : Bool

/-- Calls made into the cipher backends / timer-visible effects, in
order.  `bs` records the payload slices handed to `dvbcsa_bs_decrypt`
and the index of the sentinel slot written just before the call. -/
inductive BCall where
  | setIV (parity : Bool) (iv : List Nat)
  | aes (parity : Bool) (data : List Nat) (err : Bool)
  | csa (parity : Bool) (data : List Nat)
  | bs (parity : Bool) (items : List (List Nat)) (sentinelIdx : Nat)
deriving DecidableEq

/-- The pure models of the external cipher backends.  `aesErr` models
`gcry_cipher_decrypt` reporting an error. -/
structure Backend where
  csaDecrypt : Bool → List Nat → List Nat
  bsDecrypt : Bool → List Nat → List Nat
  aesDecrypt : Bool → List Nat → List Nat
  aesErr : Bool → List Nat → Bool

/-- Result of one call into the pipe: new state, emitted items (in
emission order) and backend calls (in call order). -/
structure Step where
  st : DecState
  out : List Item
  calls : List BCall

/-- The fixed CISSA IV `"DVBTMCPTAESCISSA"` (`cissa_iv` in the source). -/
def cissaIV : List Nat :=
  [0x44, 0x56, 0x42, 0x54, 0x4d, 0x43, 0x50, 0x54,
   0x41, 0x45, 0x53, 0x43, 0x49, 0x53, 0x53, 0x41]

/-! ## Construction (`upipe_dvbcsa_dec_alloc`)

`fd = some l` models construction with a flow definition announcing
latency `l` (`uref_clock_get_latency` failing is `some 0`); `fd = none`
models construction without one.  `odd0` models the indeterminate
initial value of the (never-initialised) `odd` field; `pids` the PID set
(empty after `upipe_dvbcsa_common_init`, but kept general so that
`AddPid`/`DelPid` can be modelled as predicate swaps). -/
def allocState (N : Nat) (fd : Option Nat) (odd0 : Bool) (pids : Nat → Bool) : DecState where
  mode := if fd.isSome then .CSA_BS else .CSA
  keyEven := false
  keyOdd := false
  odd := odd0
  batchSize := N
  batch := []
  held := []
  checkPid := pids
  latency := fd.getD 0
  useCount := 0
  timerArmed := false

/-! ## `upipe_dvbcsa_dec_set_flow_def_real`

In CSA_BS mode the published latency becomes
`upstream + common->latency + DVBCSA_LATENCY`; otherwise it is passed
through.  The stored flow def is observable downstream as the control
record itself, so applying it is modelled as emitting the transformed
record. -/
def applyFlowDef (s : DecState) (lat : Nat) : Nat :=
  if s.mode = .CSA_BS then lat + s.latency + DVBCSA_LATENCY else lat

def emitItem (s : DecState) : Item → Item
  | .packet i b => .packet i b
  | .flowDef i lat => .flowDef i (applyFlowDef s lat)

/-! ## `upipe_dvbcsa_dec_flush` -/

/-- The payload slice `batch[k].data/len` points at: the bytes of the
held packet `e.idx` from offset `e.hdr` on. -/
def payloadAt (held : List Item) (e : BatchEntry) : List Nat :=
  match held.get? e.idx with
  | some (.packet _ b) => b.drop e.hdr
  | _ => []

/-- Effect of `dvbcsa_bs_decrypt` on one batch slot: the payload region
of the owning packet is rewritten in place. -/
def rewriteEntry (be : Backend) (parity : Bool) (held : List Item) (e : BatchEntry) : List Item :=
  match held.get? e.idx with
  | some (.packet i b) =>
      held.set e.idx (.packet i (b.take e.hdr ++ be.bsDecrypt parity (b.drop e.hdr)))
  | _ => held

/-- `upipe_dvbcsa_dec_flush`: cancel the timer; if the batch is
non-empty, write the sentinel slot at index `current`, run
`dvbcsa_bs_decrypt` with the current parity and unmap; then pop every
retained uref in FIFO order (flow defs go through
`set_flow_def_real`, packets are output); finally `upipe_release`. -/
def flush (be : Backend) (s : DecState) : Step where
  st := { s with timerArmed := false, batch := [], held := [], useCount := s.useCount - 1 }
  out := (s.batch.foldl (rewriteEntry be s.odd) s.held).map (emitItem s)
  calls :=
    if s.batch.isEmpty then []
    else [BCall.bs s.odd (s.batch.map (payloadAt s.held)) s.batch.length]

/-- The upump worker: fires only when a timer is armed, and then runs
`flush`. -/
def timerFire (be : Backend) (s : DecState) : Step :=
  if s.timerArmed then flush be s else ⟨s, [], []⟩

/-! ## `upipe_dvbcsa_dec_input` -/

/-- Lines 384-389: no even key installed — flush first if urefs are
retained, then output the packet untouched. -/
def passNoKey (be : Backend) (s : DecState) (it : Item) : Step :=
  if s.held.isEmpty then ⟨s, [it], []⟩
  else
    let f := flush be s
    ⟨f.st, f.out ++ [it], f.calls⟩

/-- Lines 418-424: packet not to be descrambled — output immediately
when no uref is retained, otherwise hold it (order-preserving). -/
def holdOrOutput (s : DecState) (it : Item) : Step :=
  if s.held.isEmpty then ⟨s, [it], []⟩
  else ⟨{ s with held := s.held ++ [it] }, [], []⟩

/-- Lines 426-441: effective header size.  `none` models the two drop
paths (adaptation length byte unreadable, or `af_length ≥ 183`). -/
def headerSizeOf (p : List Nat) : Option Nat :=
  if ts_has_adaptation p then
    match p.get? TS_HEADER_SIZE with
    | none => none
    | some af => if 183 ≤ af then none else some (TS_HEADER_SIZE + af + 1)
  else some TS_HEADER_SIZE

/-- Lines 464-479 (AES branch): set the CISSA IV, decrypt in place the
largest multiple of 16 bytes after the header, and output immediately —
also when the backend reports an error. -/
def aesStep (be : Backend) (s : DecState) (parity : Bool) (i : Nat) (ts : List Nat)
    (hdr : Nat) : Step :=
  let aesLen := (ts.length - hdr) / 16 * 16
  let region := (ts.drop hdr).take aesLen
  { st := s
    out := [.packet i (ts.take hdr ++ be.aesDecrypt parity region ++ (ts.drop hdr).drop aesLen)]
    calls := [.setIV parity cissaIV, .aes parity region (be.aesErr parity region)] }

/-- Lines 482-487 (CSA branch): decrypt the whole payload in place and
output immediately. -/
def csaStep (be : Backend) (s : DecState) (parity : Bool) (i : Nat) (ts : List Nat)
    (hdr : Nat) : Step :=
  { st := s
    out := [.packet i (ts.take hdr ++ be.csaDecrypt parity (ts.drop hdr))]
    calls := [.csa parity (ts.drop hdr)] }

/-- Lines 493-512, after the conditional parity-flip flush: set the
parity cursor, append the payload slice to the batch, hold the uref; if
`first` (the value computed at the TOP of `upipe_dvbcsa_dec_input`, NOT
recomputed after a flush), `upipe_use` and arm the deadline timer; flush
when the batch is full.  `out0`/`calls0` are the emissions of the
parity-flip flush, which precede this packet's. -/
def bissTail (be : Backend) (s : DecState) (parity : Bool) (i : Nat) (ts : List Nat)
    (hdr : Nat) (first : Bool) (out0 : List Item) (calls0 : List BCall) : Step :=
  let s2 := { s with odd := parity }
  let s3 := { s2 with
    batch := s2.batch ++ [⟨s2.held.length, hdr, parity⟩]
    held := s2.held ++ [Item.packet i ts] }
  let s4 := if first then { s3 with useCount := s3.useCount + 1, timerArmed := true } else s3
  if s4.batchSize ≤ s4.batch.length then
    let f2 := flush be s4
    ⟨f2.st, out0 ++ f2.out, calls0 ++ f2.calls⟩
  else ⟨s4, out0, calls0⟩

/-- Lines 489-512 (CSA_BS "biss" branch): flush first when urefs are
retained and the parity flipped (`!first && odd != parity`), then batch
the packet. -/
def bissStep (be : Backend) (s : DecState) (parity : Bool) (i : Nat) (ts : List Nat)
    (hdr : Nat) : Step :=
  match s.held.isEmpty, s.odd == parity with
  | false, false =>
      let f1 := flush be s
      bissTail be f1.st parity i ts hdr false f1.out f1.calls
  | first, _ => bissTail be s parity i ts hdr first [] []

/-- `upipe_dvbcsa_dec_input`.  Buffer copies (`ubuf_block_copy`,
`ubuf_block_write`) are modelled as succeeding; their failure paths drop
the packet exactly like the header-read failures. -/
def input (be : Backend) (s : DecState) (it : Item) : Step :=
  match it with
  | .flowDef i lat =>
      if s.held.isEmpty then ⟨s, [.flowDef i (applyFlowDef s lat)], []⟩
      else ⟨{ s with held := s.held ++ [Item.flowDef i lat] }, [], []⟩
  | .packet i p =>
      if s.keyEven = false then passNoKey be s (.packet i p)
      else if p.length < TS_HEADER_SIZE then ⟨s, [], []⟩
      else
        let scr := ts_get_scrambling p
        let parity := scr == TS_SCRAMBLING_ODD
        let valid := scr == TS_SCRAMBLING_EVEN || (scr == TS_SCRAMBLING_ODD && s.keyOdd)
        if !(valid && ts_has_payload p && s.checkPid (ts_get_pid p)) then
          holdOrOutput s (.packet i p)
        else
          match headerSizeOf p with
          | none => ⟨s, [], []⟩
          | some hdr =>
              let ts := ts_set_scrambling p 0
              match s.mode with
              | .AES => aesStep be s parity i ts hdr
              | .CSA => csaStep be s parity i ts hdr
              | .CSA_BS => bissStep be s parity i ts hdr

/-! ## `upipe_dvbcsa_dec_free_key` / `upipe_dvbcsa_dec_set_key` -/

inductive Err where
  | ok
  | invalid
  | alloc
  | backendFail
deriving DecidableEq

/-- `upipe_dvbcsa_dec_free_key`: frees both slots (for every mode) and
NULLs them. -/
def free_key (s : DecState) : DecState :=
  { s with keyEven := false, keyOdd := false }

/-- Outcomes of the fallible allocator / libgcrypt calls `set_key` can
make, in source order: `dvbcsa(_bs)_key_alloc` for the even and odd
slots, and `gcry_cipher_open`/`gcry_cipher_setkey` for each slot.
`true` means the call succeeds. -/
structure AllocPlan where
  alloc0 : Bool
  alloc1 : Bool
  open0 : Bool
  setk0 : Bool
  open1 : Bool
  setk1 : Bool
deriving DecidableEq

/-- The composite effect of `upipe_dvbcsa_dec_set_key` on the only pipe
fields it touches, as a pure function: given the current mode, the
outcomes of the fallible calls and the parsed control-word lengths, it
yields the final (mode, even slot occupied, odd slot occupied, return
code).  Traced from the source: `free_key` first (all error returns
leave both slots empty); the two validation checks; then one of three
branches — `mode == CSA_BS` keeps CSA_BS and allocates `key_bs`
(freeing the fresh even key when the odd allocation fails);
`even_cw.str.len >= 32` switches to AES before the gcry calls, whose
failure paths all run `free_key`; otherwise mode becomes CSA with the
same allocation scheme as CSA_BS. -/
def set_key_core (mode : Mode) (al : AllocPlan) (evenStrlen evenLen oddLen : Nat) :
    Mode × Bool × Bool × Err :=
  if evenLen = 0 ∨ evenStrlen ≠ evenLen then (mode, false, false, .invalid)
  else if oddLen ≠ 0 ∧ evenStrlen ≠ oddLen then (mode, false, false, .invalid)
  else if mode = .CSA_BS then
    if al.alloc0 = false then (mode, false, false, .alloc)
    else if oddLen = 0 then (mode, true, false, .ok)
    else if al.alloc1 = false then (mode, false, false, .alloc)
    else (mode, true, true, .ok)
  else if 32 ≤ evenLen then
    if al.open0 = false then (.AES, false, false, .backendFail)
    else if al.setk0 = false then (.AES, false, false, .backendFail)
    else if oddLen = 0 then (.AES, true, false, .ok)
    else if al.open1 = false then (.AES, false, false, .backendFail)
    else if al.setk1 = false then (.AES, false, false, .backendFail)
    else (.AES, true, true, .ok)
  else
    if al.alloc0 = false then (.CSA, false, false, .alloc)
    else if oddLen = 0 then (.CSA, true, false, .ok)
    else if al.alloc1 = false then (.CSA, false, false, .alloc)
    else (.CSA, true, true, .ok)

/-- `upipe_dvbcsa_dec_set_key`.

`ustring_to_dvbcsa_cw` lives in `upipe-dvbcsa/upipe_dvbcsa_common.h`,
which is not part of the sources at hand; the function is therefore
abstracted by the only data `set_key` reads from its results: `evenLen`
/ `oddLen` are `even_cw.str.len` / `odd_cw.str.len` (the number of
characters the control-word parser consumed, `0` for an empty parse),
and `evenStrlen` is `strlen(even_key)`.  Note the source compares
`strlen(even_key)` (not the odd string's length) against
`odd_cw.str.len`.  The function only reads and writes the mode and key
slots; everything else is untouched. -/
def set_key (s : DecState) (al : AllocPlan) (evenStrlen evenLen oddLen : Nat) :
    DecState × Err :=
  let r := set_key_core s.mode al evenStrlen evenLen oddLen
  ({ s with mode := r.1, keyEven := r.2.1, keyOdd := r.2.2.1 }, r.2.2.2)

/-- Modelled from the spec: the externally visible contract of
`ustring_to_dvbcsa_cw` (defined in `upipe_dvbcsa_common.h`, not among
the sources): the parser consumes the longest prefix of hexadecimal
characters of the key string and `str.len` is its length. -/
def isHexByte (c : Nat) : Bool :=
  (48 ≤ c && c ≤ 57) || (97 ≤ c && c ≤ 102) || (65 ≤ c && c ≤ 70)

/-- Modelled from the spec: `ustring_to_dvbcsa_cw(s).str.len` under the
longest-hex-prefix reading of the control-word parser. -/
def cwLen (key : List Nat) : Nat := (key.takeWhile isHexByte).length

/-- `set_key` on raw key strings, tying the abstract lengths to the
spec-modelled parser. -/
def set_key_str (s : DecState) (al : AllocPlan) (evenKey oddKey : List Nat) :
    DecState × Err :=
  set_key s al evenKey.length (cwLen evenKey) (cwLen oddKey)

/-! ## Whole-run machinery

A `Cmd` is one event the event loop can dispatch to the pipe: a packet
or flow def arriving at `upipe_input`, the deadline timer firing, a
`SetKey` control call, or an `AddPid`/`DelPid` control call (modelled
as swapping the opaque PID predicate).  `runCmds` tags arriving items
with consecutive arrival indices. -/
inductive Cmd where
  | pkt (bytes : List Nat)
  | flow (lat : Nat)
  | timer
  | key (al : AllocPlan) (evenStrlen evenLen oddLen : Nat)
  | pids (f : Nat → Bool)

def applyCmd (be : Backend) (s : DecState) (n : Nat) : Cmd → Step × Nat
  | .pkt b => (input be s (.packet n b), n + 1)
  | .flow lat => (input be s (.flowDef n lat), n + 1)
  | .timer => (timerFire be s, n)
  | .key al a b c => (⟨(set_key s al a b c).1, [], []⟩, n)
  | .pids f => (⟨{ s with checkPid := f }, [], []⟩, n)

def runCmds (be : Backend) (s : DecState) (n : Nat) : List Cmd → DecState × List Item
  | [] => (s, [])
  | c :: rest =>
      let p := applyCmd be s n c
      let r := runCmds be p.1.st p.2 rest
      (r.1, p.1.out ++ r.2)

/-- A state is reachable when some event sequence leads to it from a
freshly constructed pipe (with a positive bit-slice batch width, as
`dvbcsa_bs_batch_size()` always reports). -/
def Reachable (be : Backend) (s : DecState) : Prop :=
  ∃ N fd odd0 pids cmds, 1 ≤ N ∧
    s = (runCmds be (allocState N fd odd0 pids) 0 cmds).1

/-! ## The inductive well-formedness invariant -/

def ids (l : List Item) : List Nat := l.map Item.id

/-- Invariant of reachable states: the batch width is positive, the
batch has strictly fewer than `batchSize` live slots between calls, all
batch slots carry the parity cursor, every batch slot points at a
retained uref, and outside CSA_BS mode nothing is retained or batched. -/
def WF (s : DecState) : Prop :=
  1 ≤ s.batchSize ∧
  s.batch.length < s.batchSize ∧
  (∀ e ∈ s.batch, e.par = s.odd) ∧
  (∀ e ∈ s.batch, e.idx < s.held.length) ∧
  (s.mode ≠ .CSA_BS → s.held = [] ∧ s.batch = [])

instance : DecidablePred WF := by
  intro s
  unfold WF
  infer_instance

/-! ## Basic lemmas about `flush` -/

theorem flush_st (be : Backend) (s : DecState) :
    (flush be s).st =
      { s with timerArmed := false, batch := [], held := [], useCount := s.useCount - 1 } := rfl

theorem emitItem_id (s : DecState) (it : Item) : (emitItem s it).id = it.id := by
  cases it <;> rfl

theorem ids_map_emitItem (s : DecState) (l : List Item) : ids (l.map (emitItem s)) = ids l := by
  induction l with
  | nil => rfl
  | cons a t ih =>
      simp only [List.map_cons, ids, List.map] at *
      rw [show (emitItem s a).id = a.id from emitItem_id s a]
      exact congrArg _ ih

theorem map_set_same {α β : Type} (f : α → β) :
    ∀ (l : List α) (i : Nat) (a b : α), l.get? i = some a → f b = f a →
      (l.set i b).map f = l.map f := by
  intro l
  induction l with
  | nil => intro i a b h; simp at h
  | cons x t ih =>
      intro i a b h hf
      cases i with
      | zero =>
          simp only [List.get?] at h
          cases h
          simp [List.set, hf]
      | succ j =>
          simp only [List.get?] at h
          simp [List.set, ih j a b h hf]

theorem ids_rewriteEntry (be : Backend) (parity : Bool) (held : List Item) (e : BatchEntry) :
    ids (rewriteEntry be parity held e) = ids held := by
  unfold rewriteEntry
  cases h : held.get? e.idx with
  | none => rfl
  | some it =>
      cases it with
      | packet i b =>
          exact map_set_same Item.id held e.idx _ _ h rfl
      | flowDef i lat => rfl

theorem ids_foldl_rewrite (be : Backend) (parity : Bool) :
    ∀ (batch : List BatchEntry) (held : List Item),
      ids (batch.foldl (rewriteEntry be parity) held) = ids held := by
  intro batch
  induction batch with
  | nil => intro held; rfl
  | cons e t ih =>
      intro held
      simp only [List.foldl]
      rw [ih, ids_rewriteEntry]

theorem flush_out_ids (be : Backend) (s : DecState) : ids (flush be s).out = ids s.held := by
  unfold flush
  simp only
  rw [ids_map_emitItem, ids_foldl_rewrite]

/-- Positions of the hold queue no batch slot points at are drained by
`flush` untouched: the packet is emitted byte-identical, at the same
FIFO position. -/
theorem rewriteEntry_get_ne (be : Backend) (parity : Bool) (held : List Item) (e : BatchEntry)
    (j : Nat) (hne : e.idx ≠ j) :
    (rewriteEntry be parity held e).get? j = held.get? j := by
  unfold rewriteEntry
  split
  · rw [List.get?_eq_getElem?, List.get?_eq_getElem?]
    exact List.getElem?_set_ne hne
  · rfl

theorem flush_out_get (be : Backend) (s : DecState) (j : Nat) (i : Nat) (b : List Nat)
    (hnb : ∀ e ∈ s.batch, e.idx ≠ j) (hj : s.held.get? j = some (.packet i b)) :
    (flush be s).out.get? j = some (.packet i b) := by
  have key : ∀ (batch : List BatchEntry) (held : List Item),
      (∀ e ∈ batch, e.idx ≠ j) → held.get? j = some (.packet i b) →
      (batch.foldl (rewriteEntry be s.odd) held).get? j = some (.packet i b) := by
    intro batch
    induction batch with
    | nil => intro held _ h; exact h
    | cons e t ih =>
        intro held hnb h
        simp only [List.foldl]
        refine ih _ (fun e' he' => hnb e' (List.mem_cons_of_mem e he')) ?_
        rw [rewriteEntry_get_ne be s.odd held e j (hnb e (List.mem_cons_self e t))]
        exact h
  unfold flush
  simp only
  rw [List.get?_eq_getElem?, List.getElem?_map, ← List.get?_eq_getElem?]
  rw [key s.batch s.held hnb hj]
  rfl

/-! ## Preservation of the invariant -/

theorem wf_flush (be : Backend) (s : DecState) (h : 1 ≤ s.batchSize) : WF (flush be s).st := by
  rw [flush_st]
  refine ⟨h, ?_, ?_, ?_, ?_⟩
  · simpa using h
  · intro e he; simp at he
  · intro e he; simp at he
  · intro _; exact ⟨rfl, rfl⟩

theorem batchSize_flush (be : Backend) (s : DecState) :
    (flush be s).st.batchSize = s.batchSize := rfl

theorem wf_passNoKey (be : Backend) (s : DecState) (it : Item) (h : WF s) :
    WF (passNoKey be s it).st := by
  unfold passNoKey
  by_cases hh : s.held.isEmpty
  · simpa [hh] using h
  · simpa [hh] using wf_flush be s h.1

theorem wf_holdOrOutput (s : DecState) (it : Item) (h : WF s) :
    WF (holdOrOutput s it).st := by
  obtain ⟨h1, h2, h3, h4, h5⟩ := h
  unfold holdOrOutput
  by_cases hh : s.held.isEmpty
  · simpa [hh] using ⟨h1, h2, h3, h4, h5⟩
  · rw [if_neg hh]
    dsimp only
    refine ⟨h1, h2, h3, ?_, ?_⟩
    · intro e he
      simp only [List.length_append, List.length_cons, List.length_nil]
      exact Nat.lt_succ_of_lt (h4 e he)
    · intro hm
      exact absurd ((h5 hm).1) (by simpa [List.isEmpty_iff] using hh)

theorem wf_bissTail (be : Backend) (s : DecState) (parity : Bool) (i : Nat) (ts : List Nat)
    (hdr : Nat) (first : Bool) (out0 : List Item) (calls0 : List BCall)
    (h1 : 1 ≤ s.batchSize) (h2 : s.batch.length < s.batchSize)
    (hpar : ∀ e ∈ s.batch, e.par = parity)
    (h4 : ∀ e ∈ s.batch, e.idx < s.held.length)
    (hm : s.mode = .CSA_BS) :
    WF (bissTail be s parity i ts hdr first out0 calls0).st := by
  unfold bissTail
  cases first
  all_goals by_cases hfu : s.batchSize ≤ s.batch.length + 1
  all_goals simp only [if_true, if_false, Bool.false_eq_true, Bool.true_eq_false,
    List.length_append, List.length_cons, List.length_nil, hfu]
  all_goals first
    | exact wf_flush be _ h1
    | (refine ⟨h1, by simp; omega, ?_, ?_, ?_⟩
       · intro e he
         rcases List.mem_append.mp he with hin | hnew
         · exact hpar e hin
         · simp at hnew; simp [hnew]
       · intro e he
         simp only [List.length_append, List.length_cons, List.length_nil]
         rcases List.mem_append.mp he with hin | hnew
         · exact Nat.lt_succ_of_lt (h4 e hin)
         · simp at hnew; simp [hnew]
       · intro hmm; exact absurd hm hmm)

theorem wf_bissStep (be : Backend) (s : DecState) (parity : Bool) (i : Nat) (ts : List Nat)
    (hdr : Nat) (h : WF s) (hm : s.mode = .CSA_BS) :
    WF (bissStep be s parity i ts hdr).st := by
  obtain ⟨h1, h2, h3, h4, h5⟩ := h
  unfold bissStep
  cases hfirst : s.held.isEmpty
  all_goals cases hodd : s.odd == parity
  all_goals dsimp only
  · -- retained urefs, parity flip: flush then batch
    refine wf_bissTail be _ parity i ts hdr false _ _ h1 ?_ ?_ ?_ ?_
    · rw [flush_st]; simpa using h1
    · rw [flush_st]; intro e he; simp at he
    · rw [flush_st]; intro e he; simp at he
    · rw [flush_st]; exact hm
  · -- retained urefs, same parity
    refine wf_bissTail be s parity i ts hdr false _ _ h1 h2 ?_ h4 hm
    intro e he
    rw [h3 e he]
    exact eq_of_beq hodd
  · -- first packet: the batch is empty by the idx bound
    have hnil : s.held = [] := List.isEmpty_iff.mp hfirst
    have hbnil : s.batch = [] := by
      cases hb : s.batch with
      | nil => rfl
      | cons e t =>
          have := h4 e (by rw [hb]; exact List.mem_cons_self e t)
          rw [hnil] at this
          simp at this
    refine wf_bissTail be s parity i ts hdr true _ _ h1 h2 ?_ h4 hm
    intro e he
    rw [hbnil] at he
    simp at he
  · have hnil : s.held = [] := List.isEmpty_iff.mp hfirst
    have hbnil : s.batch = [] := by
      cases hb : s.batch with
      | nil => rfl
      | cons e t =>
          have := h4 e (by rw [hb]; exact List.mem_cons_self e t)
          rw [hnil] at this
          simp at this
    refine wf_bissTail be s parity i ts hdr true _ _ h1 h2 ?_ h4 hm
    intro e he
    rw [hbnil] at he
    simp at he

theorem wf_input (be : Backend) (s : DecState) (it : Item) (h : WF s) :
    WF (input be s it).st := by
  cases it with
  | flowDef i lat =>
      unfold input
      dsimp only
      by_cases hh : s.held.isEmpty
      · simpa [hh] using h
      · rw [if_neg hh]
        dsimp only
        obtain ⟨h1, h2, h3, h4, h5⟩ := h
        refine ⟨h1, h2, h3, ?_, ?_⟩
        · intro e he
          simp only [List.length_append, List.length_cons, List.length_nil]
          exact Nat.lt_succ_of_lt (h4 e he)
        · intro hm
          exact absurd (h5 hm).1 (by simpa [List.isEmpty_iff] using hh)
  | packet i p =>
      unfold input
      dsimp only
      split
      · exact wf_passNoKey be s _ h
      · split
        · exact h
        · split
          · exact wf_holdOrOutput s _ h
          · split
            · exact h
            · next hdr heq =>
                split
                · exact h
                · exact h
                · next hm => exact wf_bissStep be s _ i _ hdr h hm

theorem wf_timerFire (be : Backend) (s : DecState) (h : WF s) : WF (timerFire be s).st := by
  unfold timerFire
  split
  · exact wf_flush be s h.1
  · exact h

theorem set_key_fields (s : DecState) (al : AllocPlan) (a b c : Nat) :
    (set_key s al a b c).1.held = s.held ∧
    (set_key s al a b c).1.batch = s.batch ∧
    (set_key s al a b c).1.batchSize = s.batchSize ∧
    (set_key s al a b c).1.odd = s.odd :=
  ⟨rfl, rfl, rfl, rfl⟩

/-- `set_key` can change the mode only when the current mode is not
CSA_BS (the source checks `mode == CSA_BS` first and keeps it). -/
theorem set_key_core_mode_of_csa_bs (al : AllocPlan) (a b c : Nat) :
    (set_key_core .CSA_BS al a b c).1 = .CSA_BS := by
  unfold set_key_core
  repeat' split
  all_goals simp_all

theorem set_key_mode_of_csa_bs (s : DecState) (al : AllocPlan) (a b c : Nat)
    (hm : s.mode = .CSA_BS) : (set_key s al a b c).1.mode = .CSA_BS := by
  unfold set_key
  dsimp only
  rw [hm]
  exact set_key_core_mode_of_csa_bs al a b c

theorem wf_set_key (s : DecState) (al : AllocPlan) (a b c : Nat) (h : WF s) :
    WF (set_key s al a b c).1 := by
  obtain ⟨h1, h2, h3, h4, h5⟩ := h
  obtain ⟨e1, e2, e3, e4⟩ := set_key_fields s al a b c
  refine ⟨by rw [e3]; exact h1, by rw [e2, e3]; exact h2, ?_, ?_, ?_⟩
  · intro e he; rw [e2] at he; rw [e4]; exact h3 e he
  · intro e he; rw [e2] at he; rw [e1]; exact h4 e he
  · intro hm
    rw [e1, e2]
    by_cases hcb : s.mode = .CSA_BS
    · exact absurd (set_key_mode_of_csa_bs s al a b c hcb) hm
    · exact h5 hcb

theorem wf_applyCmd (be : Backend) (s : DecState) (n : Nat) (c : Cmd) (h : WF s) :
    WF (applyCmd be s n c).1.st := by
  cases c with
  | pkt b => exact wf_input be s _ h
  | flow lat => exact wf_input be s _ h
  | timer => exact wf_timerFire be s h
  | key al a b c => exact wf_set_key s al a b c h
  | pids f =>
      obtain ⟨h1, h2, h3, h4, h5⟩ := h
      exact ⟨h1, h2, h3, h4, h5⟩

theorem wf_runCmds (be : Backend) :
    ∀ (cmds : List Cmd) (s : DecState) (n : Nat), WF s → WF (runCmds be s n cmds).1 := by
  intro cmds
  induction cmds with
  | nil => intro s n h; exact h
  | cons c rest ih =>
      intro s n h
      exact ih _ _ (wf_applyCmd be s n c h)

theorem wf_alloc (N : Nat) (fd : Option Nat) (odd0 : Bool) (pids : Nat → Bool) (hN : 1 ≤ N) :
    WF (allocState N fd odd0 pids) := by
  refine ⟨hN, by simpa using hN, ?_, ?_, ?_⟩
  · intro e he; simp [allocState] at he
  · intro e he; simp [allocState] at he
  · intro _; exact ⟨rfl, rfl⟩

/-- Every reachable state satisfies the invariant. -/
theorem reach_wf (be : Backend) (s : DecState) (h : Reachable be s) : WF s := by
  obtain ⟨N, fd, odd0, pids, cmds, hN, rfl⟩ := h
  exact wf_runCmds be cmds _ 0 (wf_alloc N fd odd0 pids hN)

/-! ## Emission-order machinery: each event appends the drained hold
queue (and possibly the arriving item) to the output, so arrival indices
stay sorted. -/

theorem ids_append (l1 l2 : List Item) : ids (l1 ++ l2) = ids l1 ++ ids l2 :=
  List.map_append Item.id l1 l2

theorem flush_held (be : Backend) (s : DecState) : (flush be s).st.held = [] := rfl

theorem ids_nil : ids [] = [] := rfl

theorem ids_cons (it : Item) (l : List Item) : ids (it :: l) = it.id :: ids l := rfl

theorem bissTail_ids (be : Backend) (s : DecState) (parity : Bool) (i : Nat) (ts : List Nat)
    (hdr : Nat) (first : Bool) (out0 : List Item) (calls0 : List BCall) :
    ids (bissTail be s parity i ts hdr first out0 calls0).out ++
      ids (bissTail be s parity i ts hdr first out0 calls0).st.held =
    ids out0 ++ ids s.held ++ [i] := by
  unfold bissTail
  cases first
  all_goals simp only [Bool.false_eq_true, eq_self_iff_true, if_false, if_true]
  all_goals try dsimp only
  all_goals split
  all_goals simp only [flush_held, flush_out_ids, ids_append, ids_cons, ids_nil, Item.id,
    List.append_nil, List.append_assoc]

theorem input_ids_shape (be : Backend) (s : DecState) (it : Item) (h : WF s) :
    ids (input be s it).out ++ ids (input be s it).st.held = ids s.held ++ [it.id] ∨
    ids (input be s it).out ++ ids (input be s it).st.held = ids s.held := by
  cases it with
  | flowDef i lat =>
      unfold input
      dsimp only
      by_cases hh : s.held.isEmpty
      · left
        have : s.held = [] := List.isEmpty_iff.mp hh
        simp [hh, this, ids, Item.id]
      · left
        simp only [hh, Bool.false_eq_true, if_false]
        simp only [ids_append, ids_cons, ids_nil, Item.id, List.nil_append, List.append_nil]
  | packet i p =>
      unfold input
      dsimp only
      split
      · -- no key: flush (if held) then output
        unfold passNoKey
        by_cases hh : s.held.isEmpty
        · left
          have : s.held = [] := List.isEmpty_iff.mp hh
          simp [hh, this, ids, Item.id]
        · left
          simp only [hh, Bool.false_eq_true, if_false]
          simp only [flush_held, flush_out_ids, ids_append, ids_cons, ids_nil, Item.id,
            List.append_nil]
      · split
        · -- header unreadable: drop
          right; rfl
        · split
          · -- not descrambled: output or hold
            unfold holdOrOutput
            by_cases hh : s.held.isEmpty
            · left
              have : s.held = [] := List.isEmpty_iff.mp hh
              simp [hh, this, ids, Item.id]
            · left
              simp only [hh, Bool.false_eq_true, if_false]
              simp only [ids_append, ids_cons, ids_nil, Item.id, List.nil_append,
                List.append_nil]
          · split
            · -- bad adaptation field: drop
              right; rfl
            · split
              · -- AES: immediate output; held is empty outside CSA_BS
                next hmode =>
                  left
                  have : s.held = [] := (h.2.2.2.2 (by rw [hmode]; simp)).1
                  simp [aesStep, this, ids, Item.id]
              · next hmode =>
                  left
                  have : s.held = [] := (h.2.2.2.2 (by rw [hmode]; simp)).1
                  simp [csaStep, this, ids, Item.id]
              · -- CSA_BS: hold, possibly flushing before and/or after
                left
                unfold bissStep
                cases hfirst : s.held.isEmpty
                all_goals cases hodd : s.odd == (ts_get_scrambling p == TS_SCRAMBLING_ODD)
                all_goals dsimp only
                all_goals rw [bissTail_ids]
                all_goals simp only [flush_held, flush_out_ids, ids_nil, Item.id,
                  List.append_nil, List.nil_append]

theorem timer_ids_shape (be : Backend) (s : DecState) :
    ids (timerFire be s).out ++ ids (timerFire be s).st.held = ids s.held := by
  unfold timerFire
  split
  · simp only [flush_held, flush_out_ids, ids_nil, List.append_nil]
  · simp only [ids_nil, List.nil_append, List.append_nil]

theorem applyCmd_ids_shape (be : Backend) (s : DecState) (n : Nat) (c : Cmd) (h : WF s) :
    (ids (applyCmd be s n c).1.out ++ ids (applyCmd be s n c).1.st.held =
        ids s.held ++ [n] ∧ (applyCmd be s n c).2 = n + 1) ∨
    (ids (applyCmd be s n c).1.out ++ ids (applyCmd be s n c).1.st.held = ids s.held ∧
        n ≤ (applyCmd be s n c).2) := by
  cases c with
  | pkt b =>
      rcases input_ids_shape be s (.packet n b) h with hs | hs
      · exact Or.inl ⟨hs, rfl⟩
      · exact Or.inr ⟨hs, Nat.le_succ n⟩
  | flow lat =>
      rcases input_ids_shape be s (.flowDef n lat) h with hs | hs
      · exact Or.inl ⟨hs, rfl⟩
      · exact Or.inr ⟨hs, Nat.le_succ n⟩
  | timer => exact Or.inr ⟨timer_ids_shape be s, Nat.le_refl n⟩
  | key al a b c => exact Or.inr ⟨by simp [applyCmd, set_key, ids], Nat.le_refl n⟩
  | pids f => exact Or.inr ⟨by simp [applyCmd, ids], Nat.le_refl n⟩

/-- Core ordering invariant: running any event sequence keeps the
already-emitted arrival indices, followed by the retained ones, strictly
increasing and below the next fresh index. -/
theorem runCmds_sorted_aux (be : Backend) :
    ∀ (cmds : List Cmd) (s : DecState) (n : Nat) (os : List Nat), WF s →
      List.Pairwise (· < ·) (os ++ ids s.held) →
      (∀ j ∈ os ++ ids s.held, j < n) →
      List.Pairwise (· < ·)
        ((os ++ ids (runCmds be s n cmds).2) ++ ids (runCmds be s n cmds).1.held) := by
  intro cmds
  induction cmds with
  | nil =>
      intro s n os h hp _
      simpa [runCmds, ids, List.append_assoc] using hp
  | cons c rest ih =>
      intro s n os h hp hb
      show List.Pairwise (· < ·) _
      have hwf' : WF (applyCmd be s n c).1.st := wf_applyCmd be s n c h
      have step := applyCmd_ids_shape be s n c h
      have key : List.Pairwise (· < ·)
            ((os ++ ids (applyCmd be s n c).1.out) ++ ids (applyCmd be s n c).1.st.held) ∧
          ∀ j ∈ (os ++ ids (applyCmd be s n c).1.out) ++ ids (applyCmd be s n c).1.st.held,
            j < (applyCmd be s n c).2 := by
        rcases step with ⟨hs, hn⟩ | ⟨hs, hn⟩
        · constructor
          · rw [List.append_assoc, hs, ← List.append_assoc]
            rw [List.pairwise_append]
            refine ⟨hp, List.pairwise_singleton _ n, ?_⟩
            intro a ha b hb'
            simp at hb'
            subst hb'
            exact hb a ha
          · intro j hj
            rw [List.append_assoc, hs, ← List.append_assoc] at hj
            rw [hn]
            rcases List.mem_append.mp hj with hj | hj
            · exact Nat.lt_succ_of_lt (hb j hj)
            · simp at hj; omega
        · constructor
          · rw [List.append_assoc, hs]
            exact hp
          · intro j hj
            rw [List.append_assoc, hs] at hj
            exact Nat.lt_of_lt_of_le (hb j hj) hn
      have := ih (applyCmd be s n c).1.st (applyCmd be s n c).2
        (os ++ ids (applyCmd be s n c).1.out) hwf' key.1 key.2
      simp only [runCmds]
      simpa [ids_append, List.append_assoc] using this

/-! ## Dispatch lemmas for `input` -/

/-- The parity the input path computes for a packet: `odd = true` iff
the scrambling control is `TS_SCRAMBLING_ODD`. -/
def pktParity (p : List Nat) : Bool := ts_get_scrambling p == TS_SCRAMBLING_ODD

/-- The `valid && has_payload && check_pid` test of lines 406-418. -/
def wantDescramble (s : DecState) (p : List Nat) : Bool :=
  (ts_get_scrambling p == TS_SCRAMBLING_EVEN ||
    (ts_get_scrambling p == TS_SCRAMBLING_ODD && s.keyOdd)) &&
  ts_has_payload p && s.checkPid (ts_get_pid p)

theorem input_eq_branch (be : Backend) (s : DecState) (i : Nat) (p : List Nat) (hdr : Nat)
    (hk : s.keyEven = true) (hlen : ¬p.length < TS_HEADER_SIZE)
    (hv : wantDescramble s p = true) (hh : headerSizeOf p = some hdr) :
    input be s (.packet i p) =
      match s.mode with
      | .AES => aesStep be s (pktParity p) i (ts_set_scrambling p 0) hdr
      | .CSA => csaStep be s (pktParity p) i (ts_set_scrambling p 0) hdr
      | .CSA_BS => bissStep be s (pktParity p) i (ts_set_scrambling p 0) hdr := by
  unfold input
  dsimp only
  rw [if_neg (by simp [hk])]
  rw [if_neg hlen]
  unfold wantDescramble at hv
  rw [if_neg (by simp [hv])]
  rw [hh]
  rfl

theorem input_eq_invalid (be : Backend) (s : DecState) (i : Nat) (p : List Nat)
    (hk : s.keyEven = true) (hlen : ¬p.length < TS_HEADER_SIZE)
    (hv : wantDescramble s p = false) :
    input be s (.packet i p) = holdOrOutput s (.packet i p) := by
  unfold input
  dsimp only
  rw [if_neg (by simp [hk])]
  rw [if_neg hlen]
  unfold wantDescramble at hv
  rw [if_pos (by simp [hv])]

theorem input_eq_nokey (be : Backend) (s : DecState) (i : Nat) (p : List Nat)
    (hk : s.keyEven = false) :
    input be s (.packet i p) = passNoKey be s (.packet i p) := by
  unfold input
  dsimp only
  rw [if_pos hk]

theorem input_eq_short (be : Backend) (s : DecState) (i : Nat) (p : List Nat)
    (hk : s.keyEven = true) (hlen : p.length < TS_HEADER_SIZE) :
    input be s (.packet i p) = ⟨s, [], []⟩ := by
  unfold input
  dsimp only
  rw [if_neg (by simp [hk])]
  rw [if_pos hlen]

theorem input_eq_afdrop (be : Backend) (s : DecState) (i : Nat) (p : List Nat)
    (hk : s.keyEven = true) (hlen : ¬p.length < TS_HEADER_SIZE)
    (hv : wantDescramble s p = true) (hh : headerSizeOf p = none) :
    input be s (.packet i p) = ⟨s, [], []⟩ := by
  unfold input
  dsimp only
  rw [if_neg (by simp [hk])]
  rw [if_neg hlen]
  unfold wantDescramble at hv
  rw [if_neg (by simp [hv])]
  rw [hh]

/-! ## Concrete fixtures used by counterexamples and witnesses -/

/-- A concrete backend instance (identity transforms, no errors). -/
def be0 : Backend := ⟨fun _ b => b, fun _ b => b, fun _ b => b, fun _ _ => false⟩

/-- All fallible calls succeed. -/
def alOK : AllocPlan := ⟨true, true, true, true, true, true⟩

def pidsAll : Nat → Bool := fun _ => true

def pidsNone : Nat → Bool := fun _ => false

/-- A minimal even-scrambled packet: sync byte, PID 0x100, payload flag
set, scrambling control = 2. -/
def pktEven : List Nat := [0x47, 0x01, 0x00, 0x92]

/-- The same packet odd-scrambled (scrambling control = 3). -/
def pktOdd : List Nat := [0x47, 0x01, 0x00, 0xD2]

/-- A CSA_BS pipe (constructed with a flow definition) with both keys
installed and an open PID filter, reached by an explicit event run. -/
def c2cmds : List Cmd := [.key alOK 16 16 16, .pids pidsAll]

def sKeysBS : DecState := (runCmds be0 (allocState 8 (some 5) false pidsNone) 0 c2cmds).1

/-- The C2 run: even packet then odd packet into `sKeysBS`. -/
def c2state : DecState :=
  (runCmds be0 (allocState 8 (some 5) false pidsNone) 0 (c2cmds ++ [.pkt pktEven, .pkt pktOdd])).1

/-- The same run followed by one more (even) packet. -/
def c2state3 : DecState :=
  (runCmds be0 (allocState 8 (some 5) false pidsNone) 0
    (c2cmds ++ [.pkt pktEven, .pkt pktOdd, .pkt pktEven])).1

/-- An AES pipe: constructed without a flow definition, keyed with a
32-hex-character even control word. -/
def sAES : DecState :=
  (runCmds be0 (allocState 8 none false pidsNone) 0 [.key alOK 32 32 0, .pids pidsAll]).1

/-- A full 188-byte even-scrambled TS packet with constant payload. -/
def p188 : List Nat := [0x47, 0x01, 0x00, 0x92] ++ List.replicate 184 7

/-! ## Claim C1 — cipher-mode selection at `set_key` -/

/-- C1, counterexample: a pipe constructed with a flow definition is in
CSA_BS mode; installing an even control word of 32 hex characters
succeeds but the resulting mode is CSA_BS, not AES — the source tests
`mode == CSA_BS` before the `len >= 32` AES test, so the claim's "AES
takes precedence / at least 32 characters always yields AES" is false. -/
theorem c1_counterexample :
    (allocState 8 (some 5) false pidsAll).mode = Mode.CSA_BS ∧
    (set_key (allocState 8 (some 5) false pidsAll) alOK 32 32 0).2 = Err.ok ∧
    (set_key (allocState 8 (some 5) false pidsAll) alOK 32 32 0).1.mode ≠ Mode.AES := by
  refine ⟨rfl, rfl, ?_⟩
  intro h
  exact absurd h (by decide)

/-- C1, amended: at key installation the precedence is: a pipe already
in CSA_BS mode (as constructed with a flow definition) stays CSA_BS
regardless of the control-word length; otherwise the mode becomes AES
when the effective even control-word length is at least 32, and CSA
otherwise.  (Construction chooses CSA_BS exactly when a flow definition
is supplied.) -/
theorem c1_mode_selection_amended (N : Nat) (fd : Option Nat) (odd0 : Bool)
    (pids : Nat → Bool) (s : DecState) (al : AllocPlan) (eS eL oL : Nat)
    (hval : eL ≠ 0 ∧ eS = eL ∧ (oL = 0 ∨ eS = oL)) :
    (allocState N fd odd0 pids).mode = (if fd.isSome then Mode.CSA_BS else Mode.CSA) ∧
    (set_key s al eS eL oL).1.mode =
      (if s.mode = Mode.CSA_BS then Mode.CSA_BS
       else if 32 ≤ eL then Mode.AES else Mode.CSA) := by
  obtain ⟨h1, h2, h3⟩ := hval
  refine ⟨rfl, ?_⟩
  unfold set_key set_key_core
  dsimp only
  rw [if_neg (by rintro (h | h); exact h1 h; exact h h2)]
  rw [if_neg (by rintro ⟨ho, hne⟩; rcases h3 with h | h; exact ho h; exact hne h)]
  by_cases hm : s.mode = Mode.CSA_BS
  · rw [if_pos hm, if_pos hm]
    repeat' split
    all_goals exact hm
  · rw [if_neg hm, if_neg hm]
    by_cases h32 : 32 ≤ eL
    · rw [if_pos h32, if_pos h32]
      repeat' split
      all_goals rfl
    · rw [if_neg h32, if_neg h32]
      repeat' split
      all_goals rfl

theorem c1_witness :
    (allocState 8 none false pidsAll).mode = (if (none : Option Nat).isSome
      then Mode.CSA_BS else Mode.CSA) ∧
    (set_key (allocState 8 none false pidsAll) alOK 32 32 0).1.mode =
      (if (allocState 8 none false pidsAll).mode = Mode.CSA_BS then Mode.CSA_BS
       else if 32 ≤ 32 then Mode.AES else Mode.CSA) :=
  c1_mode_selection_amended 8 none false pidsAll (allocState 8 none false pidsAll) alOK
    32 32 0 ⟨by decide, rfl, Or.inl rfl⟩

/-! ## Claim C7 — `set_key` validation -/

/-- C7: (a) an even control word that parses empty or does not parse in
full yields `UBASE_ERR_INVALID` and leaves no key installed; (b) a valid
even control word with an empty odd control word succeeds and leaves the
odd slot empty; (c) with a non-empty odd control word, the call fails
with `UBASE_ERR_INVALID` exactly when the odd control word's parsed
length differs from the even one's. -/
theorem c7_set_key_validation (s : DecState) (eS eL oL : Nat) :
    ((eL = 0 ∨ eS ≠ eL) →
      (set_key s alOK eS eL oL).2 = Err.invalid ∧
      (set_key s alOK eS eL oL).1.keyEven = false ∧
      (set_key s alOK eS eL oL).1.keyOdd = false) ∧
    (eL ≠ 0 → eS = eL → oL = 0 →
      (set_key s alOK eS eL oL).2 = Err.ok ∧
      (set_key s alOK eS eL oL).1.keyEven = true ∧
      (set_key s alOK eS eL oL).1.keyOdd = false) ∧
    (eL ≠ 0 → eS = eL → oL ≠ 0 →
      ((set_key s alOK eS eL oL).2 = Err.invalid ↔ oL ≠ eL)) := by
  refine ⟨?_, ?_, ?_⟩
  · intro hbad
    unfold set_key set_key_core
    dsimp only
    rw [if_pos hbad]
    exact ⟨rfl, rfl, rfl⟩
  · intro h1 h2 h3
    unfold set_key set_key_core
    dsimp only
    rw [if_neg (by rintro (h | h); exact h1 h; exact h h2)]
    rw [if_neg (by rintro ⟨ho, _⟩; exact ho h3)]
    by_cases hm : s.mode = Mode.CSA_BS
    · rw [if_pos hm]
      rw [if_neg (by intro h; exact absurd h (by decide)), if_pos h3]
      exact ⟨rfl, rfl, rfl⟩
    · rw [if_neg hm]
      by_cases h32 : 32 ≤ eL
      · rw [if_pos h32]
        rw [if_neg (by intro h; exact absurd h (by decide))]
        rw [if_neg (by intro h; exact absurd h (by decide)), if_pos h3]
        exact ⟨rfl, rfl, rfl⟩
      · rw [if_neg h32]
        rw [if_neg (by intro h; exact absurd h (by decide)), if_pos h3]
        exact ⟨rfl, rfl, rfl⟩
  · intro h1 h2 h3
    subst h2
    by_cases hmatch : oL = eS
    · -- lengths match: no error is possible with all allocations OK
      have hok : (set_key s alOK eS eS oL).2 = Err.ok := by
        subst hmatch
        unfold set_key set_key_core
        dsimp only
        rw [if_neg (by rintro (h | h); exact h1 h; exact h rfl)]
        rw [if_neg (by rintro ⟨_, hne⟩; exact hne rfl)]
        by_cases hm : s.mode = Mode.CSA_BS
        · rw [if_pos hm]
          rw [if_neg (by intro h; exact absurd h (by decide)), if_neg h3]
          rw [if_neg (by intro h; exact absurd h (by decide))]
        · rw [if_neg hm]
          by_cases h32 : 32 ≤ oL
          · rw [if_pos h32]
            rw [if_neg (by intro h; exact absurd h (by decide))]
            rw [if_neg (by intro h; exact absurd h (by decide)), if_neg h3]
            rw [if_neg (by intro h; exact absurd h (by decide))]
            rw [if_neg (by intro h; exact absurd h (by decide))]
          · rw [if_neg h32]
            rw [if_neg (by intro h; exact absurd h (by decide)), if_neg h3]
            rw [if_neg (by intro h; exact absurd h (by decide))]
      constructor
      · intro hinv
        rw [hok] at hinv
        exact absurd hinv (by decide)
      · intro hne
        exact absurd hmatch hne
    · -- length mismatch: the second validation check fires
      have hinv : (set_key s alOK eS eS oL).2 = Err.invalid := by
        unfold set_key set_key_core
        dsimp only
        rw [if_neg (by rintro (h | h); exact h1 h; exact h rfl)]
        rw [if_pos ⟨h3, fun h => hmatch h.symm⟩]
      exact ⟨fun _ => fun h => hmatch h, fun _ => hinv⟩

theorem c7_witness :
    ((16 = 0 ∨ 16 ≠ 16) →
      (set_key (allocState 8 none false pidsAll) alOK 16 16 16).2 = Err.invalid ∧
      (set_key (allocState 8 none false pidsAll) alOK 16 16 16).1.keyEven = false ∧
      (set_key (allocState 8 none false pidsAll) alOK 16 16 16).1.keyOdd = false) ∧
    ((16 : Nat) ≠ 0 → (16 : Nat) = 16 → (16 : Nat) = 0 →
      (set_key (allocState 8 none false pidsAll) alOK 16 16 16).2 = Err.ok ∧
      (set_key (allocState 8 none false pidsAll) alOK 16 16 16).1.keyEven = true ∧
      (set_key (allocState 8 none false pidsAll) alOK 16 16 16).1.keyOdd = false) ∧
    ((16 : Nat) ≠ 0 → (16 : Nat) = 16 → (16 : Nat) ≠ 0 →
      ((set_key (allocState 8 none false pidsAll) alOK 16 16 16).2 = Err.invalid ↔
        (16 : Nat) ≠ 16)) :=
  c7_set_key_validation (allocState 8 none false pidsAll) 16 16 16

/-! ## Claim C10 — `set_key` is not atomic on failure -/

theorem set_key_core_err_keys (m : Mode) (al : AllocPlan) (a b c : Nat)
    (herr : (set_key_core m al a b c).2.2.2 ≠ Err.ok) :
    (set_key_core m al a b c).2.1 = false ∧ (set_key_core m al a b c).2.2.1 = false := by
  unfold set_key_core
  repeat' split
  all_goals first
    | exact ⟨rfl, rfl⟩
    | exact absurd (by unfold set_key_core at herr; simp_all) herr

theorem passNoKey_out (be : Backend) (s : DecState) (it : Item) :
    ∃ pre, (passNoKey be s it).out = pre ++ [it] := by
  unfold passNoKey
  split
  · exact ⟨[], rfl⟩
  · exact ⟨(flush be s).out, rfl⟩

/-- C10: `upipe_dvbcsa_dec_set_key` frees the previous key state before
validating, so every failing call leaves the key register empty, and any
packet fed to the pipe afterwards is passed through (emitted as the last
item of that call, byte-identical). -/
theorem c10_set_key_non_atomic (be : Backend) (s : DecState) (al : AllocPlan)
    (eS eL oL : Nat) (herr : (set_key s al eS eL oL).2 ≠ Err.ok) :
    (set_key s al eS eL oL).1.keyEven = false ∧
    (set_key s al eS eL oL).1.keyOdd = false ∧
    ∀ (i : Nat) (p : List Nat), ∃ pre,
      (input be (set_key s al eS eL oL).1 (.packet i p)).out = pre ++ [Item.packet i p] := by
  have hcore := set_key_core_err_keys s.mode al eS eL oL herr
  refine ⟨hcore.1, hcore.2, ?_⟩
  intro i p
  rw [input_eq_nokey be _ i p hcore.1]
  exact passNoKey_out be _ _

theorem c10_witness :
    (set_key (allocState 8 none false pidsAll) alOK 16 16 12).1.keyEven = false ∧
    (set_key (allocState 8 none false pidsAll) alOK 16 16 12).1.keyOdd = false ∧
    ∃ pre, (input be0 (set_key (allocState 8 none false pidsAll) alOK 16 16 12).1
      (.packet 0 pktEven)).out = pre ++ [Item.packet 0 pktEven] := by
  have h := c10_set_key_non_atomic be0 (allocState 8 none false pidsAll) alOK 16 16 12
    (by decide)
  exact ⟨h.1, h.2.1, h.2.2 0 pktEven⟩

/-! ## Claim C2 — self-reference / timer pairing (code bug)

Evaluating the embedding on the claim's own scenario: in CSA_BS mode
with both keys installed, an even packet followed by an odd packet.  The
parity-flip flush empties the hold queue and releases the
self-reference, the triggering packet is then enqueued into the
now-empty queue — but `first` (computed before the flush) is still
false, so the code takes no new self-reference and arms no timer.  The
next flush then releases a reference that was never acquired
(outstanding count −1). -/
theorem c2_selfref_run_eval :
    c2state.held ≠ [] ∧
    c2state.useCount = 0 ∧
    c2state.timerArmed = false ∧
    c2state3.useCount = -1 := by
  refine ⟨?_, by decide, by decide, by decide⟩
  intro h
  exact absurd (congrArg List.length h) (by decide)

/-! ## Claim C3 — the batch never mixes parities -/

theorem bissTail_out_prefix (be : Backend) (s : DecState) (parity : Bool) (i : Nat)
    (ts : List Nat) (hdr : Nat) (first : Bool) (out0 : List Item) (calls0 : List BCall) :
    ∃ t, (bissTail be s parity i ts hdr first out0 calls0).out = out0 ++ t := by
  unfold bissTail
  cases first
  all_goals simp only [Bool.false_eq_true, eq_self_iff_true, if_false, if_true]
  all_goals try dsimp only
  all_goals split
  · exact ⟨_, rfl⟩
  · exact ⟨[], (List.append_nil out0).symm⟩
  · exact ⟨_, rfl⟩
  · exact ⟨[], (List.append_nil out0).symm⟩

theorem bissTail_batch_pars (be : Backend) (s : DecState) (parity : Bool) (i : Nat)
    (ts : List Nat) (hdr : Nat) (first : Bool) (out0 : List Item) (calls0 : List BCall)
    (hpar : ∀ e ∈ s.batch, e.par = parity) :
    ∀ e ∈ (bissTail be s parity i ts hdr first out0 calls0).st.batch, e.par = parity := by
  unfold bissTail
  cases first
  all_goals simp only [Bool.false_eq_true, eq_self_iff_true, if_false, if_true]
  all_goals try dsimp only
  all_goals split
  all_goals intro e he
  all_goals try (rw [flush_st] at he; simp at he)
  all_goals rcases List.mem_append.mp he with hin | hnew
  · exact hpar e hin
  · simp at hnew; simp [hnew]
  · exact hpar e hin
  · simp at hnew; simp [hnew]

/-- C3: in CSA_BS mode, (1) all slots of the batch carry the same
parity, in every reachable state; (2) when a valid scrambled packet
arrives whose parity differs from the parity cursor of a non-empty
batch, the retained urefs are flushed first (they form a prefix of this
call's emissions) and the resulting batch carries only the new packet's
parity. -/
theorem c3_batch_parity (be : Backend) (s : DecState) (hr : Reachable be s) :
    (∀ e1 ∈ s.batch, ∀ e2 ∈ s.batch, e1.par = e2.par) ∧
    (∀ (i : Nat) (p : List Nat) (hdr : Nat),
      s.mode = Mode.CSA_BS → s.keyEven = true → ¬p.length < TS_HEADER_SIZE →
      wantDescramble s p = true → headerSizeOf p = some hdr →
      s.batch ≠ [] → s.odd ≠ pktParity p →
      (∃ t, ids (input be s (.packet i p)).out = ids s.held ++ t) ∧
      (∀ e ∈ (input be s (.packet i p)).st.batch, e.par = pktParity p)) := by
  have hwf := reach_wf be s hr
  obtain ⟨h1, h2, h3, h4, h5⟩ := hwf
  constructor
  · intro e1 he1 e2 he2
    rw [h3 e1 he1, h3 e2 he2]
  · intro i p hdr hm hk hlen hv hh hb hodd
    rw [input_eq_branch be s i p hdr hk hlen hv hh, hm]
    have hheld : s.held.isEmpty = false := by
      cases hbb : s.batch with
      | nil => exact absurd hbb hb
      | cons e t =>
          have := h4 e (by rw [hbb]; exact List.mem_cons_self e t)
          rcases hhh : s.held with _ | ⟨x, xs⟩
          · rw [hhh] at this; simp at this
          · rfl
    have hbeq : (s.odd == pktParity p) = false := by
      cases hso : s.odd <;> cases hpp : pktParity p <;>
        simp_all
    unfold bissStep
    rw [hheld, hbeq]
    dsimp only
    constructor
    · obtain ⟨t, ht⟩ := bissTail_out_prefix be (flush be s).st (pktParity p) i
        (ts_set_scrambling p 0) hdr false (flush be s).out (flush be s).calls
      exact ⟨ids t, by rw [ht, ids_append, flush_out_ids]⟩
    · refine bissTail_batch_pars be (flush be s).st (pktParity p) i
        (ts_set_scrambling p 0) hdr false (flush be s).out (flush be s).calls ?_
      intro e he
      rw [flush_st] at he
      simp at he

/-- A reachable CSA_BS state with one even packet batched. -/
def sC3 : DecState :=
  (runCmds be0 (allocState 8 (some 5) false pidsNone) 0 (c2cmds ++ [.pkt pktEven])).1

theorem c3_witness :
    (∀ e1 ∈ sC3.batch, ∀ e2 ∈ sC3.batch, e1.par = e2.par) ∧
    (∃ t, ids (input be0 sC3 (.packet 3 pktOdd)).out = ids sC3.held ++ t) ∧
    (∀ e ∈ (input be0 sC3 (.packet 3 pktOdd)).st.batch, e.par = pktParity pktOdd) := by
  have hr : Reachable be0 sC3 :=
    ⟨8, some 5, false, pidsNone, c2cmds ++ [Cmd.pkt pktEven], by decide, rfl⟩
  have h := c3_batch_parity be0 sC3 hr
  have h2 := h.2 3 pktOdd 4 (by decide) (by decide) (by decide) (by decide) (by decide)
    (by decide) (by decide)
  exact ⟨h.1, h2.1, h2.2⟩

/-! ## Claim C9 — batch index bounds and the sentinel slot -/

theorem flush_calls_si (be : Backend) (t : DecState) (par : Bool) (items : List (List Nat))
    (si : Nat) (hmem : BCall.bs par items si ∈ (flush be t).calls) : si = t.batch.length := by
  unfold flush at hmem
  dsimp only at hmem
  split at hmem
  · simp at hmem
  · simp at hmem
    exact hmem.2.2

theorem bissTail_calls_si (be : Backend) (s : DecState) (parity : Bool) (i : Nat)
    (ts : List Nat) (hdr : Nat) (first : Bool) (out0 : List Item) (calls0 : List BCall)
    (par : Bool) (items : List (List Nat)) (si : Nat)
    (hmem : BCall.bs par items si ∈ (bissTail be s parity i ts hdr first out0 calls0).calls) :
    BCall.bs par items si ∈ calls0 ∨ si = s.batch.length + 1 := by
  unfold bissTail at hmem
  cases first
  all_goals simp only [Bool.false_eq_true, eq_self_iff_true, if_false, if_true] at hmem
  all_goals try dsimp only at hmem
  all_goals split at hmem
  · rcases List.mem_append.mp hmem with hin | hf
    · exact Or.inl hin
    · right
      have := flush_calls_si be _ par items si hf
      simpa using this
  · exact Or.inl hmem
  · rcases List.mem_append.mp hmem with hin | hf
    · exact Or.inl hin
    · right
      have := flush_calls_si be _ par items si hf
      simpa using this
  · exact Or.inl hmem

theorem input_calls_si (be : Backend) (s : DecState) (it : Item) (h : WF s)
    (par : Bool) (items : List (List Nat)) (si : Nat)
    (hmem : BCall.bs par items si ∈ (input be s it).calls) : si ≤ s.batchSize := by
  obtain ⟨h1, h2, h3, h4, h5⟩ := h
  cases it with
  | flowDef i lat =>
      unfold input at hmem
      dsimp only at hmem
      split at hmem <;> simp at hmem
  | packet i p =>
      unfold input at hmem
      dsimp only at hmem
      split at hmem
      · -- no key
        unfold passNoKey at hmem
        split at hmem
        · simp at hmem
        · rw [flush_calls_si be s par items si hmem]
          exact Nat.le_of_lt h2
      · split at hmem
        · simp at hmem
        · split at hmem
          · unfold holdOrOutput at hmem
            split at hmem <;> simp at hmem
          · split at hmem
            · simp at hmem
            · split at hmem
              · simp [aesStep] at hmem
              · simp [csaStep] at hmem
              · -- CSA_BS
                unfold bissStep at hmem
                rcases hfirst : s.held.isEmpty
                all_goals rcases hodd : s.odd == (ts_get_scrambling p == TS_SCRAMBLING_ODD)
                all_goals rw [hfirst, hodd] at hmem
                all_goals dsimp only at hmem
                · rcases bissTail_calls_si be _ _ i _ _ false _ _ par items si hmem with hin | hsi
                  · rw [flush_calls_si be s par items si hin]
                    exact Nat.le_of_lt h2
                  · rw [flush_st] at hsi
                    simp at hsi
                    omega
                · rcases bissTail_calls_si be s _ i _ _ false _ _ par items si hmem with hin | hsi
                  · simp at hin
                  · omega
                · rcases bissTail_calls_si be s _ i _ _ true _ _ par items si hmem with hin | hsi
                  · simp at hin
                  · omega
                · rcases bissTail_calls_si be s _ i _ _ true _ _ par items si hmem with hin | hsi
                  · simp at hin
                  · omega

theorem timer_calls_si (be : Backend) (s : DecState) (h : WF s)
    (par : Bool) (items : List (List Nat)) (si : Nat)
    (hmem : BCall.bs par items si ∈ (timerFire be s).calls) : si ≤ s.batchSize := by
  unfold timerFire at hmem
  split at hmem
  · rw [flush_calls_si be s par items si hmem]
    exact Nat.le_of_lt h.2.1
  · simp at hmem

/-- C9: in every reachable state the number of live batch slots is
strictly below `batch_size` (so the slot index written next is in
bounds), and the sentinel slot index recorded by every
`dvbcsa_bs_decrypt` call a step can make is at most `batch_size`, i.e.
strictly inside the `batch_size + 1` slots the constructor allocates. -/
theorem c9_batch_bounds (be : Backend) (s : DecState) (hr : Reachable be s) :
    s.batch.length < s.batchSize ∧
    (∀ (it : Item) (par : Bool) (items : List (List Nat)) (si : Nat),
      BCall.bs par items si ∈ (input be s it).calls → si < s.batchSize + 1) ∧
    (∀ (par : Bool) (items : List (List Nat)) (si : Nat),
      BCall.bs par items si ∈ (timerFire be s).calls → si < s.batchSize + 1) := by
  have hwf := reach_wf be s hr
  refine ⟨hwf.2.1, ?_, ?_⟩
  · intro it par items si hmem
    exact Nat.lt_succ_of_le (input_calls_si be s it hwf par items si hmem)
  · intro par items si hmem
    exact Nat.lt_succ_of_le (timer_calls_si be s hwf par items si hmem)

theorem c9_witness :
    sC3.batch.length < sC3.batchSize ∧
    (∀ (it : Item) (par : Bool) (items : List (List Nat)) (si : Nat),
      BCall.bs par items si ∈ (input be0 sC3 it).calls → si < sC3.batchSize + 1) ∧
    (∀ (par : Bool) (items : List (List Nat)) (si : Nat),
      BCall.bs par items si ∈ (timerFire be0 sC3).calls → si < sC3.batchSize + 1) :=
  c9_batch_bounds be0 sC3
    ⟨8, some 5, false, pidsNone, c2cmds ++ [Cmd.pkt pktEven], by decide, rfl⟩

/-! ## Claim C4 — emissions preserve arrival order -/

/-- C4: (1) over any event sequence from a freshly constructed pipe,
the arrival indices of the emitted items are strictly increasing — any
two items A then B observed at input and both emitted are emitted in
the order A then B; (2) a flow-definition control record is applied
(emitted) immediately exactly when the hold queue is empty, and
appended to the hold queue otherwise; (3) a flush drains the hold queue
in FIFO order (the emitted items are the retained ones, position by
position). -/
theorem c4_ordering (be : Backend) :
    (∀ (N : Nat) (fd : Option Nat) (odd0 : Bool) (pids : Nat → Bool) (cmds : List Cmd),
      1 ≤ N →
      List.Pairwise (· < ·)
        (ids (runCmds be (allocState N fd odd0 pids) 0 cmds).2)) ∧
    (∀ (s : DecState) (i lat : Nat),
      (s.held = [] → input be s (.flowDef i lat) =
        ⟨s, [Item.flowDef i (applyFlowDef s lat)], []⟩) ∧
      (s.held ≠ [] → input be s (.flowDef i lat) =
        ⟨{ s with held := s.held ++ [Item.flowDef i lat] }, [], []⟩)) ∧
    (∀ s : DecState, ids (flush be s).out = ids s.held) := by
  refine ⟨?_, ?_, fun s => flush_out_ids be s⟩
  · intro N fd odd0 pids cmds hN
    have h := runCmds_sorted_aux be cmds (allocState N fd odd0 pids) 0 []
      (wf_alloc N fd odd0 pids hN) (by simp [allocState, ids]) (by simp [allocState, ids])
    simp only [List.nil_append] at h
    exact h.sublist (List.sublist_append_left _ _)
  · intro s i lat
    constructor
    · intro hh
      unfold input
      dsimp only
      rw [if_pos (List.isEmpty_iff.mpr hh)]
    · intro hh
      unfold input
      dsimp only
      rw [if_neg (by rw [List.isEmpty_iff]; exact hh)]

theorem c4_witness :
    List.Pairwise (· < ·)
      (ids (runCmds be0 (allocState 8 (some 5) false pidsNone) 0
        (c2cmds ++ [Cmd.pkt pktEven, Cmd.flow 7, Cmd.pkt pktOdd, Cmd.timer])).2) ∧
    ids (flush be0 sC3).out = ids sC3.held := by
  have h := c4_ordering be0
  exact ⟨h.1 8 (some 5) false pidsNone _ (by decide), h.2.2 sC3⟩

/-! ## Claim C5 — the AES path -/

theorem headerSizeOf_ge (p : List Nat) (hdr : Nat) (hh : headerSizeOf p = some hdr) :
    TS_HEADER_SIZE ≤ hdr := by
  unfold headerSizeOf at hh
  split at hh
  · split at hh
    · exact absurd hh (by simp)
    · split at hh
      · exact absurd hh (by simp)
      · have := Option.some.inj hh
        omega
  · have := Option.some.inj hh
    omega

theorem scrambling_cleared (p : List Nat) (hdr : Nat) (suffix : List Nat)
    (h4 : TS_HEADER_SIZE ≤ hdr) (hp : TS_HEADER_SIZE ≤ p.length) :
    ts_get_scrambling ((ts_set_scrambling p 0).take hdr ++ suffix) = 0 := by
  have hlen : (ts_set_scrambling p 0).length = p.length := by
    simp [ts_set_scrambling]
  have htl : 3 < ((ts_set_scrambling p 0).take hdr).length := by
    rw [List.length_take, hlen]
    unfold TS_HEADER_SIZE at h4 hp
    omega
  unfold ts_get_scrambling
  rw [List.getD_eq_getElem?_getD, List.getElem?_append_left htl, List.getElem?_take,
    if_pos (by unfold TS_HEADER_SIZE at h4; omega)]
  unfold ts_set_scrambling
  rw [List.getElem?_set_self (by unfold TS_HEADER_SIZE at hp; omega)]
  have hle : (p.getD 3 0 &&& 0x3f ||| 0 <<< 6) < 64 := by
    rw [Nat.zero_shiftLeft, Nat.or_zero]
    exact Nat.lt_succ_of_le (Nat.and_le_right)
  rw [Option.getD_some]
  rw [Nat.shiftRight_eq_div_pow]
  rw [Nat.div_eq_of_lt hle]
  rfl

/-- C5: in AES mode, a valid scrambled packet is processed by setting
the fixed CISSA IV and then decrypting, in place, exactly the largest
multiple of 16 bytes of the payload that follows the header (adaptation
field included); the 1-15 trailing bytes are carried over unchanged,
the scrambling-control bits of the emitted packet are zero, the state
is untouched (no batching, no holding), and the packet is emitted in
the same call whatever error flag the backend reports (the emission
does not depend on `Backend.aesErr`). -/
theorem c5_aes_path (be : Backend) (s : DecState) (i : Nat) (p : List Nat) (hdr : Nat)
    (hm : s.mode = Mode.AES) (hk : s.keyEven = true)
    (hlen : ¬p.length < TS_HEADER_SIZE) (hv : wantDescramble s p = true)
    (hh : headerSizeOf p = some hdr) :
    input be s (.packet i p) =
      { st := s
        out := [Item.packet i ((ts_set_scrambling p 0).take hdr ++
          be.aesDecrypt (pktParity p)
            (((ts_set_scrambling p 0).drop hdr).take ((p.length - hdr) / 16 * 16)) ++
          ((ts_set_scrambling p 0).drop hdr).drop ((p.length - hdr) / 16 * 16))]
        calls := [BCall.setIV (pktParity p) cissaIV,
          BCall.aes (pktParity p)
            (((ts_set_scrambling p 0).drop hdr).take ((p.length - hdr) / 16 * 16))
            (be.aesErr (pktParity p)
              (((ts_set_scrambling p 0).drop hdr).take ((p.length - hdr) / 16 * 16)))] } ∧
    (p.length - hdr) / 16 * 16 = (p.length - hdr) - (p.length - hdr) % 16 ∧
    ts_get_scrambling ((ts_set_scrambling p 0).take hdr ++
      (be.aesDecrypt (pktParity p)
        (((ts_set_scrambling p 0).drop hdr).take ((p.length - hdr) / 16 * 16)) ++
      ((ts_set_scrambling p 0).drop hdr).drop ((p.length - hdr) / 16 * 16))) = 0 := by
  refine ⟨?_, by omega, ?_⟩
  · rw [input_eq_branch be s i p hdr hk hlen hv hh, hm]
    unfold aesStep
    simp [ts_set_scrambling]
  · exact scrambling_cleared p hdr _ (headerSizeOf_ge p hdr hh) (by omega)

set_option maxRecDepth 4000 in
theorem c5_witness :
    input be0 sAES (.packet 0 p188) =
      { st := sAES
        out := [Item.packet 0 ((ts_set_scrambling p188 0).take 4 ++
          be0.aesDecrypt (pktParity p188)
            (((ts_set_scrambling p188 0).drop 4).take ((p188.length - 4) / 16 * 16)) ++
          ((ts_set_scrambling p188 0).drop 4).drop ((p188.length - 4) / 16 * 16))]
        calls := [BCall.setIV (pktParity p188) cissaIV,
          BCall.aes (pktParity p188)
            (((ts_set_scrambling p188 0).drop 4).take ((p188.length - 4) / 16 * 16))
            (be0.aesErr (pktParity p188)
              (((ts_set_scrambling p188 0).drop 4).take ((p188.length - 4) / 16 * 16)))] } ∧
    (p188.length - 4) / 16 * 16 = (p188.length - 4) - (p188.length - 4) % 16 ∧
    ts_get_scrambling ((ts_set_scrambling p188 0).take 4 ++
      (be0.aesDecrypt (pktParity p188)
        (((ts_set_scrambling p188 0).drop 4).take ((p188.length - 4) / 16 * 16)) ++
      ((ts_set_scrambling p188 0).drop 4).drop ((p188.length - 4) / 16 * 16))) = 0 :=
  c5_aes_path be0 sAES 0 p188 4 (by decide) (by decide) (by decide) (by decide) (by decide)

/-! ## Claim C6 — drop on unreadable header / bad adaptation field -/

/-- A packet with scrambling control `none`, payload, an adaptation
field and adaptation length byte 183. -/
def pBad : List Nat := [0x47, 0x01, 0x00, 0x30, 183]

/-- C6, counterexample: with a key installed, a packet whose
adaptation-field length byte is 183 (≥ 183) but which fails the
scrambling-validity check (scrambling control `none`) is NOT dropped:
the adaptation check (lines 426-441) runs only after the
valid/payload/PID test (line 418), so this packet is emitted. -/
theorem c6_counterexample :
    sKeysBS.keyEven = true ∧
    ts_has_adaptation pBad = true ∧
    pBad.getD TS_HEADER_SIZE 0 = 183 ∧
    input be0 sKeysBS (.packet 0 pBad) = ⟨sKeysBS, [Item.packet 0 pBad], []⟩ := by
  refine ⟨by decide, by decide, by decide, ?_⟩
  rw [input_eq_invalid be0 sKeysBS 0 pBad (by decide) (by decide) (by decide)]
  unfold holdOrOutput
  rw [if_pos (by decide)]

/-- C6, amended: with a key installed, (1) a packet whose TS header
cannot be read (fewer than `TS_HEADER_SIZE` bytes) is dropped with no
state change, nothing emitted and no backend call; (2) a packet that
passes the scrambling/payload/PID checks and whose effective header
size cannot be computed is dropped likewise; and (3) the effective
header size is uncomputable precisely in the claim's two adaptation
cases — the length byte is unreadable or is ≥ 183. -/
theorem c6_drop_amended (be : Backend) (s : DecState) (i : Nat) (p : List Nat)
    (hk : s.keyEven = true) :
    (p.length < TS_HEADER_SIZE → input be s (.packet i p) = ⟨s, [], []⟩) ∧
    (¬p.length < TS_HEADER_SIZE → wantDescramble s p = true → headerSizeOf p = none →
      input be s (.packet i p) = ⟨s, [], []⟩) ∧
    (ts_has_adaptation p = true →
      (p.get? TS_HEADER_SIZE = none ∨ (∃ af, p.get? TS_HEADER_SIZE = some af ∧ 183 ≤ af)) →
      headerSizeOf p = none) := by
  refine ⟨?_, ?_, ?_⟩
  · intro hlen
    exact input_eq_short be s i p hk hlen
  · intro hlen hv hh
    exact input_eq_afdrop be s i p hk hlen hv hh
  · intro had hbad
    unfold headerSizeOf
    rw [if_pos had]
    rcases hbad with hnone | ⟨af, haf, h183⟩
    · rw [hnone]
    · rw [haf]
      simp only [h183, if_true]

/-- A valid even-scrambled packet with adaptation length byte 183. -/
def pAfBad : List Nat := [0x47, 0x01, 0x00, 0xB2, 183]

theorem c6_witness :
    input be0 sKeysBS (.packet 0 [0x47, 0x01, 0x00]) = ⟨sKeysBS, [], []⟩ ∧
    input be0 sKeysBS (.packet 0 pAfBad) = ⟨sKeysBS, [], []⟩ ∧
    headerSizeOf pAfBad = none := by
  have h1 := c6_drop_amended be0 sKeysBS 0 [0x47, 0x01, 0x00] (by decide)
  have h2 := c6_drop_amended be0 sKeysBS 0 pAfBad (by decide)
  refine ⟨h1.1 (by decide), ?_, h2.2.2 (by decide) (Or.inr ⟨183, by decide, by decide⟩)⟩
  exact h2.2.1 (by decide) (by decide)
    (h2.2.2 (by decide) (Or.inr ⟨183, by decide, by decide⟩))

/-! ## Claim C8 — pass-through of packets that are not descrambled -/

/-- C8: a packet the pipe does not descramble is forwarded
byte-identical.  (1) With no key installed it is emitted in the same
call, after the drained hold queue (which is empty at the moment of
emission); (2) with a key installed, a packet failing the
scrambling/payload/PID test (`wantDescramble` is exactly the source's
`valid && has_payload && check_pid`; it is false for scrambling `none`
or `reserved`, for odd scrambling with an empty odd slot, for missing
payload, and for a PID outside the set) is emitted unchanged
immediately when the hold queue is empty and otherwise appended to it
untouched — and no batch slot points at the appended position; (3) a
later flush emits every held packet no batch slot points at
byte-identical, at its FIFO position. -/
theorem c8_passthrough (be : Backend) (s : DecState) (i : Nat) (p : List Nat) (hwf : WF s) :
    (s.keyEven = false →
      (s.held = [] → input be s (.packet i p) = ⟨s, [Item.packet i p], []⟩) ∧
      (s.held ≠ [] → input be s (.packet i p) =
        ⟨(flush be s).st, (flush be s).out ++ [Item.packet i p], (flush be s).calls⟩)) ∧
    (s.keyEven = true → ¬p.length < TS_HEADER_SIZE → wantDescramble s p = false →
      (s.held = [] → input be s (.packet i p) = ⟨s, [Item.packet i p], []⟩) ∧
      (s.held ≠ [] → input be s (.packet i p) =
        ⟨{ s with held := s.held ++ [Item.packet i p] }, [], []⟩) ∧
      (∀ e ∈ s.batch, e.idx ≠ s.held.length)) ∧
    (∀ (j i' : Nat) (b : List Nat), (∀ e ∈ s.batch, e.idx ≠ j) →
      s.held.get? j = some (.packet i' b) →
      (flush be s).out.get? j = some (.packet i' b)) := by
  refine ⟨?_, ?_, fun j i' b hnb hj => flush_out_get be s j i' b hnb hj⟩
  · intro hk
    rw [input_eq_nokey be s i p hk]
    unfold passNoKey
    constructor
    · intro hh
      rw [if_pos (List.isEmpty_iff.mpr hh)]
    · intro hh
      rw [if_neg (by rw [List.isEmpty_iff]; exact hh)]
  · intro hk hlen hv
    rw [input_eq_invalid be s i p hk hlen hv]
    unfold holdOrOutput
    refine ⟨?_, ?_, ?_⟩
    · intro hh
      rw [if_pos (List.isEmpty_iff.mpr hh)]
    · intro hh
      rw [if_neg (by rw [List.isEmpty_iff]; exact hh)]
    · intro e he
      exact Nat.ne_of_lt (hwf.2.2.2.1 e he)

/-- A cleartext packet (scrambling control `none`, payload present). -/
def pClear : List Nat := [0x47, 0x01, 0x00, 0x12]

theorem c8_witness :
    input be0 sKeysBS (.packet 0 pClear) = ⟨sKeysBS, [Item.packet 0 pClear], []⟩ ∧
    input be0 (allocState 8 none false pidsAll) (.packet 0 pClear) =
      ⟨allocState 8 none false pidsAll, [Item.packet 0 pClear], []⟩ := by
  have h1 := c8_passthrough be0 sKeysBS 0 pClear
    (reach_wf be0 sKeysBS ⟨8, some 5, false, pidsNone, c2cmds, by decide, rfl⟩)
  have h2 := c8_passthrough be0 (allocState 8 none false pidsAll) 0 pClear
    (wf_alloc 8 none false pidsAll (by decide))
  exact ⟨(h1.2.1 (by decide) (by decide) (by decide)).1 (by decide),
    (h2.1 (by decide)).1 (by decide)⟩

end DvbcsaDec
